import Mathlib

/-!
# Verification of tinyserve's alias table and config-directory locator

Shallow embedding of `src/core/config/aliases.rs` and
`src/core/config/default.rs` from the `tinyserve` repository, together with
proofs about key normalization, the alias index, alias resolution, the
home-directory override, and config-directory creation.

Strings are modelled as lists of Unicode code points (`List Nat`), matching
Rust's `str::chars` iteration. File-system state and the process-wide
home-directory override become explicit state parameters.
-/

namespace Tinyserve

/-- A string, modelled as the list of its Unicode code points
(what Rust's `s.chars()` iterates). -/
abbrev Str := List Nat

/-- Code points of a Lean string literal, for concrete test inputs. -/
def codes (s : String) : Str := s.data.map Char.toNat

/-! ## Key normalization (`normalize_key` in aliases.rs) -/

/-- Model of Rust `char::is_whitespace`: the Unicode `White_Space`
property, which holds for exactly these 25 code points. -/
def isRustWhitespace (c : Nat) : Prop :=
  c = 0x09 ∨ c = 0x0A ∨ c = 0x0B ∨ c = 0x0C ∨ c = 0x0D ∨ c = 0x20 ∨
  c = 0x85 ∨ c = 0xA0 ∨ c = 0x1680 ∨ (0x2000 ≤ c ∧ c ≤ 0x200A) ∨
  c = 0x2028 ∨ c = 0x2029 ∨ c = 0x202F ∨ c = 0x205F ∨ c = 0x3000

instance (c : Nat) : Decidable (isRustWhitespace c) := by
  unfold isRustWhitespace; exact inferInstance

/-- The filter used by `normalize_key`: keep `c` iff it is not whitespace,
not `'-'` (45) and not `'_'` (95). -/
def keepChar (c : Nat) : Bool :=
  decide (¬ isRustWhitespace c ∧ c ≠ 45 ∧ c ≠ 95)

/-- Model of Rust `char::to_lowercase` (an iterator of code points).
Faithful on ASCII (`A`-`Z` map to `a`-`z`) and Latin-1
(`À`-`Þ` except `×` map down by 32), plus the two special mappings
relevant to multi-character output and non-Latin-1 targets:
`İ` (U+0130) maps to `i` followed by combining dot above (U+0307), and
`ẞ` (U+1E9E) maps to `ß` (U+00DF). All other code points map to
themselves (as every code point outside Unicode's uppercase set does). -/
def charToLowercase (c : Nat) : List Nat :=
  if 0x41 ≤ c ∧ c ≤ 0x5A then [c + 32]
  else if 0xC0 ≤ c ∧ c ≤ 0xDE ∧ c ≠ 0xD7 then [c + 32]
  else if c = 0x130 then [0x69, 0x307]
  else if c = 0x1E9E then [0xDF]
  else [c]

/-- The code points this model treats as uppercase: exactly those that
`charToLowercase` maps to something other than themselves. -/
def isRustUppercase (c : Nat) : Prop :=
  (0x41 ≤ c ∧ c ≤ 0x5A) ∨ (0xC0 ≤ c ∧ c ≤ 0xDE ∧ c ≠ 0xD7) ∨
  c = 0x130 ∨ c = 0x1E9E

instance (c : Nat) : Decidable (isRustUppercase c) := by
  unfold isRustUppercase; exact inferInstance

/-- `normalize_key` from aliases.rs: drop whitespace, `'-'` and `'_'`,
then lowercase each remaining code point (flat-mapped, in order). -/
def normalize_key (s : Str) : Str :=
  (s.filter keepChar).flatMap charToLowercase

theorem keepChar_iff (c : Nat) :
    keepChar c = true ↔ ¬ isRustWhitespace c ∧ c ≠ 45 ∧ c ≠ 95 := by
  simp [keepChar]

/-- Every code point produced by `charToLowercase` from a kept input is
itself kept, is a fixed point of `charToLowercase`, and is not uppercase. -/
theorem charToLowercase_sound {c d : Nat} (hc : keepChar c = true)
    (hd : d ∈ charToLowercase c) :
    keepChar d = true ∧ charToLowercase d = [d] ∧ ¬ isRustUppercase d := by
  rw [keepChar_iff] at hc ⊢
  unfold charToLowercase at hd
  unfold isRustWhitespace isRustUppercase at *
  unfold charToLowercase
  split at hd
  · simp only [List.mem_singleton] at hd
    subst hd
    refine ⟨by omega, ?_, by omega⟩
    rw [if_neg (by omega), if_neg (by omega), if_neg (by omega),
      if_neg (by omega)]
  · split at hd
    · simp only [List.mem_singleton] at hd
      subst hd
      refine ⟨by omega, ?_, by omega⟩
      rw [if_neg (by omega), if_neg (by omega), if_neg (by omega),
        if_neg (by omega)]
    · split at hd
      · simp only [List.mem_cons, List.mem_singleton, List.not_mem_nil,
          or_false] at hd
        rcases hd with hd | hd <;> subst hd
        · refine ⟨by omega, ?_, by omega⟩
          rw [if_neg (by omega), if_neg (by omega), if_neg (by omega),
            if_neg (by omega)]
        · refine ⟨by omega, ?_, by omega⟩
          rw [if_neg (by omega), if_neg (by omega), if_neg (by omega),
            if_neg (by omega)]
      · split at hd
        · simp only [List.mem_singleton] at hd
          subst hd
          refine ⟨by omega, ?_, by omega⟩
          rw [if_neg (by omega), if_neg (by omega), if_neg (by omega),
            if_neg (by omega)]
        · simp only [List.mem_singleton] at hd
          subst hd
          rename_i h1 h2 h3 h4
          refine ⟨hc, ?_, by omega⟩
          rw [if_neg h1, if_neg h2, if_neg h3, if_neg h4]

/-- Every code point of a normalized string is kept by the filter, fixed
under `charToLowercase`, and not uppercase. -/
theorem normalize_key_chars {s : Str} {d : Nat} (hd : d ∈ normalize_key s) :
    keepChar d = true ∧ charToLowercase d = [d] ∧ ¬ isRustUppercase d := by
  unfold normalize_key at hd
  rw [List.mem_flatMap] at hd
  obtain ⟨c, hc, hdc⟩ := hd
  rw [List.mem_filter] at hc
  exact charToLowercase_sound hc.2 hdc

theorem flatMap_eq_self_of_fixed {l : Str}
    (h : ∀ d ∈ l, charToLowercase d = [d]) : l.flatMap charToLowercase = l := by
  induction l with
  | nil => rfl
  | cons a t ih =>
    rw [List.flatMap_cons, h a (List.mem_cons_self a t),
      ih fun d hd => h d (List.mem_cons_of_mem a hd)]
    rfl

/-! ## Alias table (`Aliases` in aliases.rs)

The backing `map : HashMap<String, Vec<String>>` is modelled as an
association list in some fixed iteration order (Rust's `HashMap` iteration
order is unspecified; the list order stands for whatever order the map
iterates in). The derived index `idx : HashMap<String, String>` is also an
association list whose `insert` overwrites the entry for an existing key. -/

/-- The alias table's backing data: canonical key to list of aliases,
in iteration order. -/
abbrev AliasMap := List (Str × List Str)

/-- Model of `HashMap::insert` on the index: overwrites any existing entry
for key `k`, otherwise appends. -/
def insertIdx (idx : List (Str × Str)) (k v : Str) : List (Str × Str) :=
  idx.filter (fun q => q.1 ≠ k) ++ [(k, v)]

/-- Model of `HashMap::get` on the index. -/
def lookupIdx (idx : List (Str × Str)) (k : Str) : Option Str :=
  match idx with
  | [] => none
  | q :: rest => if q.1 = k then some q.2 else lookupIdx rest k

/-- One iteration of the build loop in `Aliases::index`: insert
`normalize_key(canonical) -> canonical`, then `normalize_key(a) -> canonical`
for each alias `a`. -/
def insertEntry (idx : List (Str × Str)) (p : Str × List Str) :
    List (Str × Str) :=
  p.2.foldl (fun i a => insertIdx i (normalize_key a) p.1)
    (insertIdx idx (normalize_key p.1) p.1)

/-- `Aliases::index`: the lazily built map `normalize(alias) -> canonical`,
produced by running the build loop over the whole alias map. -/
def index (m : AliasMap) : List (Str × Str) :=
  m.foldl insertEntry []

/-- `Aliases::resolve`: normalize the input and look it up in the index. -/
def resolve (m : AliasMap) (key : Str) : Option Str :=
  lookupIdx (index m) (normalize_key key)

/-- An alias-map entry `p` "hits" a normalized key `nk` when the canonical
key itself or one of its aliases normalizes to `nk`. -/
def entryHit (nk : Str) (p : Str × List Str) : Prop :=
  normalize_key p.1 = nk ∨ ∃ a ∈ p.2, normalize_key a = nk

instance (nk : Str) (p : Str × List Str) : Decidable (entryHit nk p) := by
  unfold entryHit; exact inferInstance

theorem lookupIdx_nil (k : Str) : lookupIdx [] k = none := rfl

theorem lookupIdx_cons (q : Str × Str) (rest : List (Str × Str)) (k : Str) :
    lookupIdx (q :: rest) k =
      if q.1 = k then some q.2 else lookupIdx rest k := rfl

theorem insertIdx_cons_same {q : Str × Str} {k : Str}
    (rest : List (Str × Str)) (v : Str) (hq : q.1 = k) :
    insertIdx (q :: rest) k v = insertIdx rest k v := by
  simp [insertIdx, List.filter_cons, hq]

theorem insertIdx_cons_ne {q : Str × Str} {k : Str}
    (rest : List (Str × Str)) (v : Str) (hq : q.1 ≠ k) :
    insertIdx (q :: rest) k v = q :: insertIdx rest k v := by
  simp [insertIdx, List.filter_cons, hq]

theorem lookupIdx_insertIdx (idx : List (Str × Str)) (k v k' : Str) :
    lookupIdx (insertIdx idx k v) k' =
      if k' = k then some v else lookupIdx idx k' := by
  induction idx with
  | nil =>
    simp only [insertIdx, List.filter_nil, List.nil_append, lookupIdx_cons,
      lookupIdx_nil]
    by_cases h : k' = k
    · rw [if_pos h, if_pos h.symm]
    · rw [if_neg h, if_neg fun hk => h hk.symm]
  | cons q rest ih =>
    by_cases hq : q.1 = k
    · rw [insertIdx_cons_same rest v hq, ih]
      by_cases h : k' = k
      · rw [if_pos h, if_pos h]
      · rw [if_neg h, if_neg h, lookupIdx_cons,
          if_neg (by rw [hq]; exact fun hk => h hk.symm)]
    · rw [insertIdx_cons_ne rest v hq, lookupIdx_cons, lookupIdx_cons]
      by_cases hqk : q.1 = k'
      · rw [if_pos hqk, if_pos hqk, if_neg (by rw [← hqk]; exact hq)]
      · rw [if_neg hqk, if_neg hqk, ih]

theorem lookupIdx_foldAliases_of_not_hit {A : List Str} {nk : Str}
    (c : Str) (idx : List (Str × Str))
    (h : ∀ a ∈ A, normalize_key a ≠ nk) :
    lookupIdx (A.foldl (fun i a => insertIdx i (normalize_key a) c) idx) nk =
      lookupIdx idx nk := by
  induction A generalizing idx with
  | nil => rfl
  | cons a t ih =>
    rw [List.foldl_cons, ih _ fun b hb => h b (List.mem_cons_of_mem a hb),
      lookupIdx_insertIdx,
      if_neg fun he => h a (List.mem_cons_self a t) he.symm]

theorem lookupIdx_foldAliases_of_hit {A : List Str} {nk : Str}
    (c : Str) (idx : List (Str × Str))
    (h : ∃ a ∈ A, normalize_key a = nk) :
    lookupIdx (A.foldl (fun i a => insertIdx i (normalize_key a) c) idx) nk =
      some c := by
  induction A generalizing idx with
  | nil => exact absurd h (by simp)
  | cons a t ih =>
    rw [List.foldl_cons]
    by_cases ht : ∃ b ∈ t, normalize_key b = nk
    · exact ih _ ht
    · push_neg at ht
      rcases h with ⟨b, hb, hbe⟩
      rcases List.mem_cons.mp hb with rfl | hbt
      · rw [lookupIdx_foldAliases_of_not_hit c _ ht, lookupIdx_insertIdx,
          if_pos hbe.symm]
      · exact absurd hbe (ht b hbt)

theorem lookupIdx_insertEntry_of_hit {nk : Str} {p : Str × List Str}
    (idx : List (Str × Str)) (h : entryHit nk p) :
    lookupIdx (insertEntry idx p) nk = some p.1 := by
  unfold insertEntry
  by_cases ha : ∃ a ∈ p.2, normalize_key a = nk
  · exact lookupIdx_foldAliases_of_hit p.1 _ ha
  · push_neg at ha
    rcases h with hc | hal
    · rw [lookupIdx_foldAliases_of_not_hit p.1 _ ha, lookupIdx_insertIdx,
        if_pos hc.symm]
    · rcases hal with ⟨a, haa, hae⟩
      exact absurd hae (ha a haa)

theorem lookupIdx_insertEntry_of_not_hit {nk : Str} {p : Str × List Str}
    (idx : List (Str × Str)) (h : ¬ entryHit nk p) :
    lookupIdx (insertEntry idx p) nk = lookupIdx idx nk := by
  unfold entryHit at h
  push_neg at h
  unfold insertEntry
  rw [lookupIdx_foldAliases_of_not_hit p.1 _ h.2, lookupIdx_insertIdx,
    if_neg fun he => h.1 he.symm]

/-- Characterization of the built index: looking up `nk` finds the canonical
key of the LAST alias-map entry whose canonical key or alias list hits `nk`
(later entries overwrite earlier ones), and `none` when no entry hits. -/
theorem lookupIdx_foldEntries (m : AliasMap) (idx : List (Str × Str))
    (nk : Str) :
    lookupIdx (m.foldl insertEntry idx) nk =
      match m.reverse.find? (fun p => decide (entryHit nk p)) with
      | some q => some q.1
      | none => lookupIdx idx nk := by
  induction m generalizing idx with
  | nil => rfl
  | cons p rest ih =>
    rw [List.foldl_cons, ih, List.reverse_cons, List.find?_append]
    cases hfind : rest.reverse.find? (fun p => decide (entryHit nk p)) with
    | some q => rfl
    | none =>
      by_cases hp : entryHit nk p
      · have hone : List.find? (fun p => decide (entryHit nk p)) [p] = some p := by
          simp [List.find?, hp]
        rw [hone, Option.none_or]
        exact lookupIdx_insertEntry_of_hit idx hp
      · have hone : List.find? (fun p => decide (entryHit nk p)) [p] = none := by
          simp [List.find?, hp]
        rw [hone, Option.none_or]
        exact lookupIdx_insertEntry_of_not_hit idx hp

/-- The index characterization specialized to `index`. -/
theorem lookupIdx_index (m : AliasMap) (nk : Str) :
    lookupIdx (index m) nk =
      match m.reverse.find? (fun p => decide (entryHit nk p)) with
      | some q => some q.1
      | none => none := by
  rw [index, lookupIdx_foldEntries]
  cases m.reverse.find? (fun p => decide (entryHit nk p)) <;> rfl

/-! ## Config locator (`default.rs`)

A path is its list of components. The process-wide home-directory override
(a `Mutex<Option<PathBuf>>` global read and written inside brief critical
sections) becomes an explicit state value threaded through the operations.
The filesystem is a record of the existing directories and files. -/

/-- A filesystem path as its list of components. -/
abbrev Path := List String

/-- The errors of `default.rs`: the anyhow message
"failed to determine user home directory" and I/O failures wrapping
the offending path ("failed to create configs directory: ..."). -/
inductive ConfigError where
  | homeUndetermined : ConfigError
  | ioError : Path → ConfigError
deriving DecidableEq

/-- The process-wide home-directory override cell
(the `Mutex<Option<PathBuf>>` behind `home_dir_override_lock`). -/
abbrev OverrideState := Option Path

/-- `set_home_dir_override`: replace the override with `home`
(the previous value is discarded). -/
def set_home_dir_override (_st : OverrideState) (home : Option Path) :
    OverrideState := home

/-- `user_home_dir`: the override if present, otherwise the OS-resolved
home directory `osHome` (which is `none` when the OS cannot determine
one). -/
def user_home_dir (st : OverrideState) (osHome : Option Path) :
    Option Path :=
  match st with
  | some p => some p
  | none => osHome

/-- `default_configs_dir_in`: `<home>/.tinyserve/configs`. -/
def default_configs_dir_in (home : Path) : Path :=
  home ++ [".tinyserve", "configs"]

/-- `default_configs_dir_from`: fails when no home directory is given,
otherwise the pure path computation `default_configs_dir_in`. -/
def default_configs_dir_from (home : Option Path) :
    Except ConfigError Path :=
  match home with
  | none => Except.error ConfigError.homeUndetermined
  | some h => Except.ok (default_configs_dir_in h)

/-- `default_configs_dir`: `default_configs_dir_from(user_home_dir())`. -/
def default_configs_dir (st : OverrideState) (osHome : Option Path) :
    Except ConfigError Path :=
  default_configs_dir_from (user_home_dir st osHome)

/-- Filesystem state: the sets (duplicate-free lists) of existing
directories and of existing non-directory files, each named by its path. -/
structure FS where
  dirs : List Path
  files : List Path
deriving DecidableEq

/-- The nonempty prefixes of `p`: `p` itself and all its ancestors. -/
def ancestors (p : Path) : List Path :=
  (List.range p.length).map fun k => p.take (k + 1)

/-- Add a path to a directory list unless already present. -/
def addDir (ds : List Path) (q : Path) : List Path :=
  if q ∈ ds then ds else ds ++ [q]

/-- Model of `std::fs::create_dir_all`: creates `p` and every missing
ancestor; fails when some prefix of `p` exists as a non-directory file
(creation is not possible); succeeds as a no-op when everything already
exists. -/
def create_dir_all (fs : FS) (p : Path) : Except ConfigError FS :=
  if ∃ q ∈ ancestors p, q ∈ fs.files then Except.error (ConfigError.ioError p)
  else Except.ok ⟨(ancestors p).foldl addDir fs.dirs, fs.files⟩

/-- `ensure_configs_dir_in`: `fs::create_dir_all(dir)` with an error
context naming the directory. -/
def ensure_configs_dir_in (fs : FS) (dir : Path) : Except ConfigError FS :=
  create_dir_all fs dir

/-- `ensure_default_configs_dir_from`: compute the default configs
directory for `home` (failing without touching the filesystem when `home`
is `none`), then ensure it exists. Returns the operation's result together
with the filesystem state afterwards. -/
def ensure_default_configs_dir_from (home : Option Path) (fs : FS) :
    Except ConfigError Path × FS :=
  match default_configs_dir_from home with
  | Except.error e => (Except.error e, fs)
  | Except.ok dir =>
    match ensure_configs_dir_in fs dir with
    | Except.error e => (Except.error e, fs)
    | Except.ok fs1 => (Except.ok dir, fs1)

/-- `ensure_default_configs_dir`: the public entry point, resolving home
from the override state and the OS. -/
def ensure_default_configs_dir (st : OverrideState) (osHome : Option Path)
    (fs : FS) : Except ConfigError Path × FS :=
  ensure_default_configs_dir_from (user_home_dir st osHome) fs

theorem mem_addDir_self (ds : List Path) (q : Path) : q ∈ addDir ds q := by
  unfold addDir
  split
  · assumption
  · exact List.mem_append_right _ (List.mem_singleton.mpr rfl)

theorem mem_addDir_of_mem {ds : List Path} {q : Path} (a : Path)
    (h : q ∈ ds) : q ∈ addDir ds a := by
  unfold addDir
  split
  · exact h
  · exact List.mem_append_left _ h

theorem mem_foldl_addDir_of_mem {l : List Path} {q : Path}
    {ds : List Path} (h : q ∈ ds) : q ∈ l.foldl addDir ds := by
  induction l generalizing ds with
  | nil => exact h
  | cons a t ih => exact ih (mem_addDir_of_mem a h)

theorem mem_foldl_addDir_of_mem_list {l : List Path} {q : Path}
    (ds : List Path) (h : q ∈ l) : q ∈ l.foldl addDir ds := by
  induction l generalizing ds with
  | nil => exact absurd h (List.not_mem_nil q)
  | cons a t ih =>
    rcases List.mem_cons.mp h with rfl | ht
    · rw [List.foldl_cons]
      exact mem_foldl_addDir_of_mem (mem_addDir_self ds q)
    · exact ih _ ht

theorem foldl_addDir_of_all_mem {l : List Path} {ds : List Path}
    (h : ∀ q ∈ l, q ∈ ds) : l.foldl addDir ds = ds := by
  induction l with
  | nil => rfl
  | cons a t ih =>
    rw [List.foldl_cons]
    have ha : addDir ds a = ds := by
      unfold addDir
      rw [if_pos (h a (List.mem_cons_self a t))]
    rw [ha]
    exact ih fun q hq => h q (List.mem_cons_of_mem a hq)

theorem self_mem_ancestors {p : Path} (hp : p ≠ []) : p ∈ ancestors p := by
  unfold ancestors
  rw [List.mem_map]
  refine ⟨p.length - 1, ?_, ?_⟩
  · rw [List.mem_range]
    have := List.length_pos.mpr hp
    omega
  · have hlen : p.length - 1 + 1 = p.length := by
      have := List.length_pos.mpr hp
      omega
    rw [hlen, List.take_length]

/-! ## Supporting lemmas for the claim theorems -/

theorem lookupIdx_index_isSome_of_hit {m : AliasMap} {nk : Str}
    {p : Str × List Str} (hm : p ∈ m) (hhit : entryHit nk p) :
    (lookupIdx (index m) nk).isSome = true := by
  rw [lookupIdx_index]
  cases hfind : m.reverse.find? (fun p => decide (entryHit nk p)) with
  | some q => rfl
  | none =>
    rw [List.find?_eq_none] at hfind
    exact absurd (by simpa using hhit)
      (hfind p (List.mem_reverse.mpr hm))

theorem lookupIdx_index_some_elim {m : AliasMap} {nk v : Str}
    (h : lookupIdx (index m) nk = some v) :
    ∃ p ∈ m, p.1 = v ∧ entryHit nk p := by
  rw [lookupIdx_index] at h
  cases hfind : m.reverse.find? (fun p => decide (entryHit nk p)) with
  | none => rw [hfind] at h; exact absurd h (by simp)
  | some q =>
    rw [hfind] at h
    have hv : q.1 = v := by simpa using h
    exact ⟨q, List.mem_reverse.mp (List.mem_of_find?_eq_some hfind), hv,
      by simpa using List.find?_some hfind⟩

/-- The alias table of the spec's own collision example:
`{"firstKey": ["f-o-o"], "secondKey": ["foo"]}`,
with the entries in that iteration order. -/
def collidingAliasMap : AliasMap :=
  [(codes "firstKey", [codes "f-o-o"]), (codes "secondKey", [codes "foo"])]

/-- The alias table of the spec's end-to-end example:
`{"showDir": ["show-dir", "show_dir"]}`. -/
def showDirAliasMap : AliasMap :=
  [(codes "showDir", [codes "show-dir", codes "show_dir"])]

/-! ## Claim theorems -/

/-- C1 (counterexample): in the alias table
`{"firstKey": ["f-o-o"], "secondKey": ["foo"]}`, the alias `"f-o-o"`
belongs to canonical key `"firstKey"` (and trivially normalizes like
itself), yet `resolve("f-o-o")` does not return `"firstKey"`: the
later-processed entry `"secondKey"` overwrote the index entry for the
shared normalized form `"foo"`. -/
theorem resolve_collision_cex :
    (codes "firstKey", [codes "f-o-o"]) ∈ collidingAliasMap ∧
    codes "f-o-o" ∈ [codes "f-o-o"] ∧
    normalize_key (codes "f-o-o") = normalize_key (codes "f-o-o") ∧
    resolve collidingAliasMap (codes "f-o-o") = some (codes "secondKey") ∧
    resolve collidingAliasMap (codes "f-o-o") ≠ some (codes "firstKey") := by
  decide

/-- C1 (amended): for every alias table, canonical key `c` with alias list
`A`, every `a` in `A ∪ {c}`, and every spelling `a'` normalizing like `a`,
`resolve(a')` returns `c` — provided no entry of a different canonical key
(its own spelling or one of its aliases) also normalizes to
`normalize(a)`. -/
theorem resolve_canonical_of_no_collision {m : AliasMap} {c : Str}
    {A : List Str} {a a' : Str}
    (hm : (c, A) ∈ m) (ha : a = c ∨ a ∈ A)
    (hnorm : normalize_key a' = normalize_key a)
    (hnc : ∀ p ∈ m, p.1 ≠ c → ¬ entryHit (normalize_key a) p) :
    resolve m a' = some c := by
  unfold resolve
  rw [hnorm, lookupIdx_index]
  have hhit : entryHit (normalize_key a) (c, A) := by
    rcases ha with rfl | haA
    · exact Or.inl rfl
    · exact Or.inr ⟨a, haA, rfl⟩
  cases hfind :
      m.reverse.find? (fun p => decide (entryHit (normalize_key a) p)) with
  | none =>
    rw [List.find?_eq_none] at hfind
    exact absurd (by simpa using hhit)
      (hfind (c, A) (List.mem_reverse.mpr hm))
  | some q =>
    have hq : entryHit (normalize_key a) q := by
      simpa using List.find?_some hfind
    have hqm : q ∈ m := List.mem_reverse.mp (List.mem_of_find?_eq_some hfind)
    have hqc : q.1 = c := by
      by_contra hne
      exact hnc q hqm hne hq
    show some q.1 = some c
    rw [hqc]

/-- Witness for C1 (amended) at the spec's end-to-end example:
`resolve("SHOW_DIR") = "showDir"` in `{"showDir": ["show-dir","show_dir"]}`. -/
theorem resolve_canonical_of_no_collision_witness :
    resolve showDirAliasMap (codes "SHOW_DIR") = some (codes "showDir") :=
  @resolve_canonical_of_no_collision showDirAliasMap (codes "showDir")
    [codes "show-dir", codes "show_dir"] (codes "show-dir")
    (codes "SHOW_DIR") (by decide) (by decide) (by decide) (by decide)

/-- C2: the built index has an entry for the normalized form of every
canonical key and of every alias, and every entry of the index comes from
the stated build: looking up any normalized key yields exactly the
canonical key of the last alias-map entry that mentions it (insertion in
iteration order, later inserts overwriting earlier ones), so in particular
every stored value is a canonical key `v` of some entry mentioning the
looked-up form. -/
theorem index_complete_and_sound (m : AliasMap) :
    (∀ p ∈ m, (lookupIdx (index m) (normalize_key p.1)).isSome = true ∧
      ∀ a ∈ p.2, (lookupIdx (index m) (normalize_key a)).isSome = true) ∧
    (∀ nk : Str, lookupIdx (index m) nk =
      match m.reverse.find? (fun p => decide (entryHit nk p)) with
      | some q => some q.1
      | none => none) ∧
    (∀ nk v : Str, lookupIdx (index m) nk = some v →
      ∃ p ∈ m, p.1 = v ∧ entryHit nk p) := by
  refine ⟨fun p hp => ⟨?_, fun a ha => ?_⟩, lookupIdx_index m,
    fun nk v h => lookupIdx_index_some_elim h⟩
  · exact lookupIdx_index_isSome_of_hit hp (Or.inl rfl)
  · exact lookupIdx_index_isSome_of_hit hp (Or.inr ⟨a, ha, rfl⟩)

/-- Witness for C2 at the end-to-end example map: the canonical key's own
normalized form is present in the index. -/
theorem index_complete_and_sound_witness :
    (lookupIdx (index showDirAliasMap)
      (normalize_key (codes "showDir"))).isSome = true :=
  (((index_complete_and_sound showDirAliasMap).1
    (codes "showDir", [codes "show-dir", codes "show_dir"]) (by decide)).1)

/-- C3: `resolve(key)` is exactly the lookup of `normalize_key(key)` in the
built index — it returns the stored canonical key when the normalized form
is present and `none` (an empty optional, not an error) when absent. -/
theorem resolve_eq_index_lookup (m : AliasMap) (key : Str) :
    resolve m key = lookupIdx (index m) (normalize_key key) ∧
    (∀ c : Str, lookupIdx (index m) (normalize_key key) = some c →
      resolve m key = some c) ∧
    (lookupIdx (index m) (normalize_key key) = none →
      resolve m key = none) :=
  ⟨rfl, fun _ h => h, fun h => h⟩

/-- Witness for C3: in the end-to-end example map, the unknown key
`"unknown"` is absent from the index and `resolve` returns `none`. -/
theorem resolve_eq_index_lookup_witness :
    resolve showDirAliasMap (codes "unknown") = none :=
  (resolve_eq_index_lookup showDirAliasMap (codes "unknown")).2.2 (by decide)

/-- C4: `normalize_key` is idempotent: normalizing an already-normalized
string changes nothing, because every code point it emits survives the
separator/whitespace filter and is a fixed point of lowercasing. -/
theorem normalize_key_idempotent (s : Str) :
    normalize_key (normalize_key s) = normalize_key s := by
  have hkeep : (normalize_key s).filter keepChar = normalize_key s :=
    List.filter_eq_self.mpr fun d hd => (normalize_key_chars hd).1
  show ((normalize_key s).filter keepChar).flatMap charToLowercase =
    normalize_key s
  rw [hkeep]
  exact flatMap_eq_self_of_fixed fun d hd => (normalize_key_chars hd).2.1

/-- C5: no code point of a normalized string is whitespace, `'-'` (45),
`'_'` (95), or uppercase. -/
theorem normalize_key_output_clean {s : Str} {d : Nat}
    (hd : d ∈ normalize_key s) :
    ¬ isRustWhitespace d ∧ d ≠ 45 ∧ d ≠ 95 ∧ ¬ isRustUppercase d := by
  obtain ⟨hk, _, hu⟩ := normalize_key_chars hd
  rw [keepChar_iff] at hk
  exact ⟨hk.1, hk.2.1, hk.2.2, hu⟩

/-- Witness for C5: the code point `s` (115) occurs in
`normalize_key("Show-Dir")` and satisfies all four exclusions. -/
theorem normalize_key_output_clean_witness :
    ¬ isRustWhitespace 115 ∧ (115 : Nat) ≠ 45 ∧ (115 : Nat) ≠ 95 ∧
      ¬ isRustUppercase 115 :=
  normalize_key_output_clean (s := codes "Show-Dir") (by decide)

/-- C9: every value stored in the built index, and hence every value
`resolve` ever returns, is a canonical key of the alias map. -/
theorem resolve_returns_canonical (m : AliasMap) :
    (∀ nk v : Str, lookupIdx (index m) nk = some v →
      v ∈ m.map Prod.fst) ∧
    (∀ k v : Str, resolve m k = some v → v ∈ m.map Prod.fst) := by
  have hidx : ∀ nk v : Str, lookupIdx (index m) nk = some v →
      v ∈ m.map Prod.fst := by
    intro nk v h
    obtain ⟨p, hpm, hpv, _⟩ := lookupIdx_index_some_elim h
    exact hpv ▸ List.mem_map_of_mem Prod.fst hpm
  exact ⟨hidx, fun k v h => hidx (normalize_key k) v h⟩

/-- Witness for C9: resolving `"show_dir"` in the end-to-end example map
returns `"showDir"`, which is a canonical key of the map. -/
theorem resolve_returns_canonical_witness :
    codes "showDir" ∈ showDirAliasMap.map Prod.fst :=
  (resolve_returns_canonical showDirAliasMap).2
    (codes "show_dir") (codes "showDir") (by decide)

/-- C6: with the override set to `H`, `user_home_dir` returns `H` whatever
the OS reports; after the override is cleared, it returns exactly the
OS-resolved home directory (so `none` when the OS cannot determine one). -/
theorem user_home_dir_override_precedence (st : OverrideState) (H : Path)
    (osHome : Option Path) :
    user_home_dir (set_home_dir_override st (some H)) osHome = some H ∧
    user_home_dir (set_home_dir_override st none) osHome = osHome :=
  ⟨rfl, rfl⟩

/-- C7: `default_configs_dir_from` fails with the home-undetermined error
exactly on `none`, and on every present home returns
`<home>/.tinyserve/configs`. -/
theorem default_configs_dir_from_spec :
    default_configs_dir_from none =
      Except.error ConfigError.homeUndetermined ∧
    ∀ h : Path, default_configs_dir_from (some h) =
      Except.ok (h ++ [".tinyserve", "configs"]) :=
  ⟨rfl, fun _ => rfl⟩

/-- C8 (counterexample): at the empty path the original claim fails.
`fs::create_dir_all` special-cases the empty path to an immediate success
that creates nothing, so on an empty filesystem the call succeeds and
leaves the filesystem unchanged — yet the empty path is not an existing
directory afterwards, contradicting "leaves p an existing directory". -/
theorem ensure_configs_dir_in_empty_cex :
    ensure_configs_dir_in ⟨[], []⟩ [] = Except.ok ⟨[], []⟩ ∧
    ([] : Path) ∉ (⟨[], []⟩ : FS).dirs :=
  ⟨by rfl, by decide⟩

/-- C8 (amended): `ensure_configs_dir_in` is idempotent on every nonempty
path: when a call on `fs` succeeds with resulting filesystem `fs'`, a
second call on `fs'` also succeeds, returns `fs'` itself (no further
filesystem effect), and `p` is an existing directory in `fs'`. At the
empty path both calls still succeed with no effect, but no directory is
created (`ensure_configs_dir_in_empty_cex`). -/
theorem ensure_configs_dir_in_idempotent {fs fs' : FS} {p : Path}
    (hp : p ≠ []) (h : ensure_configs_dir_in fs p = Except.ok fs') :
    ensure_configs_dir_in fs' p = Except.ok fs' ∧ p ∈ fs'.dirs := by
  unfold ensure_configs_dir_in create_dir_all at h ⊢
  split at h
  · exact absurd h (by simp)
  · rename_i hnof
    simp only [Except.ok.injEq] at h
    subst h
    constructor
    · rw [if_neg hnof,
        foldl_addDir_of_all_mem fun q hq => mem_foldl_addDir_of_mem_list _ hq]
    · exact mem_foldl_addDir_of_mem_list _ (self_mem_ancestors hp)

/-- Witness for C8 on a concrete empty filesystem and the path
`home/user`: the first call creates both directory levels and the second
call is a successful no-op. -/
theorem ensure_configs_dir_in_idempotent_witness :
    ensure_configs_dir_in ⟨[], []⟩ ["home", "user"] =
      Except.ok ⟨[["home"], ["home", "user"]], []⟩ ∧
    (ensure_configs_dir_in ⟨[["home"], ["home", "user"]], []⟩
        ["home", "user"] =
      Except.ok ⟨[["home"], ["home", "user"]], []⟩ ∧
      ["home", "user"] ∈ ([["home"], ["home", "user"]] : List Path)) :=
  ⟨by rfl,
    @ensure_configs_dir_in_idempotent ⟨[], []⟩
      ⟨[["home"], ["home", "user"]], []⟩ ["home", "user"]
      (by decide) (by rfl)⟩

/-- C10: with no determinable home directory,
`ensure_default_configs_dir_from` fails with the home-undetermined error
and returns the filesystem unchanged: the error is raised before any
filesystem operation is attempted. -/
theorem ensure_default_configs_dir_from_none_pure (fs : FS) :
    ensure_default_configs_dir_from none fs =
      (Except.error ConfigError.homeUndetermined, fs) := rfl

end Tinyserve
